import Mathlib

/-!
Verification of the protocol/session engine of `ankisyncd` (`src/ankisyncd/sync_app.py`)
against its natural-language specification.

The Python source is shallowly embedded: pure route/handler logic becomes Lean
functions; the sqlite-backed media index and the collection's graves table become
explicit record states threaded through the operations; Python exceptions that
abort a request become `Option`/explicit error outcomes.  External collaborators
(the `anki` library's checksum, unicode normalization, JSON codec, gzip, file
mtimes) are passed in as function parameters, since their code is not part of this
repository; the byte-size and file-count ceilings `SYNC_ZIP_SIZE`/`SYNC_ZIP_COUNT`
imported from `anki.consts` are likewise universally quantified parameters.
-/

namespace AnkiSyncd

/-! ### Python-semantics helpers

String manipulation is done on `List Char` (via `String.toList`) with structural
recursion throughout, mirroring Python's `str.split`, `in`, `int()` and the one
regex the source uses. -/

/-- Does the first list start with the second? -/
def startsWithL : List Char → List Char → Bool
  | _, [] => true
  | [], _ :: _ => false
  | a :: as_, b :: bs => a = b && startsWithL as_ bs

/-- Split around the first occurrence of `sep` (nonempty): `some (before, after)`
when `sep` occurs, `none` otherwise.  `none = none` also means Python's
`sep in s` is false. -/
def splitFirst (sep : List Char) : List Char → Option (List Char × List Char)
  | [] => if sep.isEmpty then some ([], []) else none
  | c :: rest =>
    if startsWithL (c :: rest) sep then some ([], (c :: rest).drop sep.length)
    else
      match splitFirst sep rest with
      | none => none
      | some (pre, post) => some (c :: pre, post)

/-- The part after the *last* occurrence of `sep`: Python's `s.split(sep)[-1]`,
computed as the reverse of the part before the first occurrence of the reversed
separator in the reversed string. -/
def afterLast (sep s : List Char) : Option (List Char) :=
  match splitFirst sep.reverse s.reverse with
  | none => none
  | some (pre, _) => some pre.reverse

/-- Python `s.split(sep)` for a single-character separator. -/
def splitOnChar (sep : Char) : List Char → List (List Char)
  | [] => [[]]
  | c :: rest =>
    match splitOnChar sep rest with
    | [] => [[]]
    | h :: t => if c = sep then [] :: h :: t else (c :: h) :: t

/-- Python `int(s)` on a plain digit string (`none` = `ValueError`, notably on
the empty string). -/
def digitsToNat? (s : List Char) : Option Nat :=
  if s.isEmpty then none
  else
    s.foldlM (fun acc c => if c.isDigit then some (acc * 10 + (c.toNat - 48)) else none) 0

/-- Python `int(s)`: an optional sign followed by digits; anything else raises
`ValueError`, modelled as `none`. -/
def pyInt? (s : List Char) : Option Int :=
  match s with
  | '-' :: rest => (digitsToNat? rest).map (fun n => -(n : Int))
  | '+' :: rest => (digitsToNat? rest).map (fun n => (n : Int))
  | _ => (digitsToNat? s).map (fun n => (n : Int))

/-- Python sequence indexing `l[i]`: negative indices count from the end,
out-of-range raises `IndexError` (modelled as `none`). -/
def pyIndex {α : Type} (l : List α) (i : Int) : Option α :=
  if 0 ≤ i then l.get? i.toNat
  else if 0 ≤ i + l.length then l.get? (i + l.length).toNat
  else none

/-- Python's lexicographic `<` on integer lists (a strict prefix is smaller). -/
def pyListLt : List Nat → List Nat → Bool
  | [], [] => false
  | [], _ :: _ => true
  | _ :: _, [] => false
  | a :: as_, b :: bs => if a < b then true else if b < a then false else pyListLt as_ bs

/-! ### `SyncMediaHandler.downloadFiles` (sync_app.py lines 307-324)

The zip that `downloadFiles` builds contains the packed files named by their
0-based index plus a `_meta` member mapping index to filename; the embedding
returns the list of packed filenames in packing order.  `SZ` and `CNT` stand for
`SYNC_ZIP_SIZE` and `SYNC_ZIP_COUNT`; `size` stands for `os.path.getsize`. -/

/-- The `for fname in files` loop of `downloadFiles`: write the file, add its
size, then break if `sz > SYNC_ZIP_SIZE or cnt > SYNC_ZIP_COUNT`, else `cnt += 1`
and continue. -/
def downloadFilesLoop (SZ CNT : Nat) (size : String → Nat) :
    List String → Nat → Nat → List String
  | [], _, _ => []
  | f :: rest, cnt, sz =>
    let sz' := sz + size f
    if SZ < sz' ∨ CNT < cnt then [f]
    else f :: downloadFilesLoop SZ CNT size rest (cnt + 1) sz'

/-- Embeds `SyncMediaHandler.downloadFiles`, abstracted to the list of packed files. -/
def downloadFiles (SZ CNT : Nat) (size : String → Nat) (files : List String) :
    List String :=
  downloadFilesLoop SZ CNT size files 0 0

/-- Total byte size of a list of files. -/
def sumSizes (size : String → Nat) (l : List String) : Nat := (l.map size).sum

/-! ### `SyncMediaHandler.mediaChanges` and the media index (lines 326-335) -/

/-- One row of the sqlite `media` table (`fname` is the primary key; a `NULL`
checksum marks a deleted file). -/
structure MediaRow where
  fname : String
  csum : Option String
  mtime : Int
  dirty : Int
deriving DecidableEq, Repr

/-- The server's media store: the `media` table plus the `lastUsn` meta value. -/
structure MediaDB where
  rows : List MediaRow
  lastUsn : Int
deriving DecidableEq, Repr

/-- Embeds `SyncMediaHandler.mediaChanges`: when the client is behind (`lastUsn < usn`)
or at USN 0, every media row is returned as `[fname, usn, csum]` with the single
current server USN; otherwise the list is empty. -/
def mediaChanges (lastUsn : Int) (db : MediaDB) : List (String × Int × Option String) :=
  if lastUsn < db.lastUsn ∨ lastUsn = 0 then
    db.rows.map (fun r => (r.fname, db.lastUsn, r.csum))
  else []

/-! ### `SyncApp._decode_data` (lines 458-468) and the `c` form field (513-516) -/

/-- The value `_decode_data` hands to the operation: either the JSON-decoded
mapping or, when JSON/Unicode decoding fails, the mapping wrapping the raw
(already decompressed) bytes under the key `data`. -/
inductive Decoded (J : Type) where
  | json (j : J)
  | rawBytes (b : List Nat)
deriving DecidableEq, Repr

/-- Embeds `SyncApp._decode_data`: gunzip when the compression flag is truthy, then try
`json.loads(data.decode())`, falling back to wrapping the bytes.  `gunzip`
models `gzip.GzipFile(...).read()` and `jsonDec` models `decode()` plus
`json.loads` (`none` = `ValueError` or `UnicodeDecodeError`). -/
def _decode_data {J : Type} (gunzip : List Nat → List Nat)
    (jsonDec : List Nat → Option J) (data : List Nat) (compression : Int) :
    Decoded J :=
  let d := if compression ≠ 0 then gunzip data else data
  match jsonDec d with
  | some j => Decoded.json j
  | none => Decoded.rawBytes d

/-- The dispatcher's compression flag: `int(req.POST['c'])`, with `KeyError`
(field absent, `none`) defaulting to 0. -/
def compressionField (c : Option Int) : Int :=
  match c with
  | none => 0
  | some n => n

/-! ### Operation routing (`SyncApp.__call__`, lines 496-611, `valid_urls` line 389,
`SyncUserSession.get_handler_for_operation` lines 371-385) -/

/-- Embeds `SyncCollectionHandler.operations` (line 51). -/
def SyncCollectionHandler.operations : List String :=
  ["meta", "applyChanges", "start", "applyGraves", "chunk", "applyChunk",
   "sanityCheck2", "finish"]

/-- Embeds `SyncMediaHandler.operations` (line 174). -/
def SyncMediaHandler.operations : List String :=
  ["begin", "mediaChanges", "mediaSanity", "uploadChanges", "downloadFiles"]

/-- Embeds `SyncApp.valid_urls`: the single union used by both base paths. -/
def valid_urls : List String :=
  SyncCollectionHandler.operations ++ SyncMediaHandler.operations ++
    ["hostKey", "upload", "download"]

/-- Which cached handler instance a session executes an operation on. -/
inductive HandlerFamily where
  | collection
  | media
deriving DecidableEq, Repr

/-- Embeds `SyncUserSession.get_handler_for_operation`: chooses the handler family by
operation name alone (collection operations checked first); an unknown name
raises, modelled as `none`. -/
def get_handler_for_operation (op : String) : Option HandlerFamily :=
  if op ∈ SyncCollectionHandler.operations then some HandlerFamily.collection
  else if op ∈ SyncMediaHandler.operations then some HandlerFamily.media
  else none

/-- Outcome of routing one request, abstracted from `SyncApp.__call__`. -/
inductive RouteOutcome where
  | notFound
  | forbidden
  | hostKeyOp
  | handled (f : HandlerFamily)
  | uploadOp
  | downloadOp
  | internalError
  | handlerMissing
deriving DecidableEq, Repr

/-- The collection-sync branch of `SyncApp.__call__` (lines 524-588): validity
against `valid_urls`, the `hostKey` special case, the session check, then
named-operation dispatch through `get_handler_for_operation`, then
`upload`/`download`, then the defensive 500. -/
def routeCollectionPath (sessionPresent : Bool) (url : String) : RouteOutcome :=
  if url ∉ valid_urls then RouteOutcome.notFound
  else if url = "hostKey" then RouteOutcome.hostKeyOp
  else if ¬ sessionPresent then RouteOutcome.forbidden
  else if url ∈ SyncCollectionHandler.operations ++ SyncMediaHandler.operations then
    match get_handler_for_operation url with
    | some f => RouteOutcome.handled f
    | none => RouteOutcome.handlerMissing
  else if url = "upload" then RouteOutcome.uploadOp
  else if url = "download" then RouteOutcome.downloadOp
  else RouteOutcome.internalError

/-- The media-sync branch of `SyncApp.__call__` (lines 591-609): session check
first, then validity against the same `valid_urls`, then unconditional dispatch
of the named operation through `get_handler_for_operation`. -/
def routeMediaPath (sessionPresent : Bool) (url : String) : RouteOutcome :=
  if ¬ sessionPresent then RouteOutcome.forbidden
  else if url ∉ valid_urls then RouteOutcome.notFound
  else
    match get_handler_for_operation url with
    | some f => RouteOutcome.handled f
    | none => RouteOutcome.handlerMissing

/-! ### `SyncCollectionHandler._old_client` (lines 57-84) and `meta` (86-106)

`cv` is a comma-separated `client,version,platform` string.  The alpha/beta/rc
loop, the suffix-stripping regex `[^0-9.].*$`, the per-component `int()` calls
and Python's lexicographic list `<` are each modelled below; any `ValueError`
raised while parsing (`none`) escapes `meta` as an uncaught exception. -/

/-- One pass of the `for name in note.keys()` loop of `_old_client`: if `name`
occurs in `version`, split on it, keep the part before the first occurrence
(`vs[0]`) and `int()` the part after the last (`vs[-1]`, `none` = `ValueError`);
otherwise leave the version alone with the note entry still 0. -/
def suffixSplit (version : List Char) (name : List Char) : Option (List Char × Int) :=
  match splitFirst name version with
  | none => some (version, 0)
  | some (pre, _) =>
    match afterLast name version with
    | none => none
    | some post =>
      match pyInt? post with
      | some n => some (pre, n)
      | none => none

/-- The whole alpha/beta/rc loop (dict order: alpha, beta, rc), returning the
remaining version string and the three note values. -/
def parseVersionSuffixes (version : List Char) :
    Option (List Char × Int × Int × Int) := do
  let (v1, a) ← suffixSplit version "alpha".toList
  let (v2, b) ← suffixSplit v1 "beta".toList
  let (v3, r) ← suffixSplit v2 "rc".toList
  pure (v3, a, b, r)

/-- Models `re.sub(r'[^0-9.].*$', '', version)`: keep the leading run of digits and
dots. -/
def versionNosuffix (s : List Char) : List Char :=
  s.takeWhile (fun c => c.isDigit || c = '.')

/-- Models `[int(x) for x in version_nosuffix.split('.')]` (`none` = `ValueError` on an
empty component). -/
def versionInt (s : List Char) : Option (List Nat) :=
  (splitOnChar '.' s).mapM digitsToNat?

/-- The body of `_old_client` after `cv.split(',')` has produced the three
parts.  A Python return value of `None` (the ankidroid `[2, 3]` branch with
note alpha 0) is conflated with `False`: both are falsy where `meta` tests the
result.  `none` = a `ValueError` escaping. -/
def _old_client_parsed (client version _platform : List Char) : Option Bool :=
  match parseVersionSuffixes version with
  | none => none
  | some (v, a, _b, _r) =>
    match versionInt (versionNosuffix v) with
    | none => none
    | some vi =>
      if client = "ankidesktop".toList then some (pyListLt vi [2, 0, 27])
      else if client = "ankidroid".toList then
        if vi = [2, 3] then
          if a ≠ 0 then some (decide (a < 4)) else some false
        else some (pyListLt vi [2, 2, 3])
      else some false

/-- Embeds `SyncCollectionHandler._old_client`: falsy `cv` is accepted outright;
otherwise `cv.split(',')` must unpack into exactly three parts (`none` =
`ValueError`). -/
def _old_client (cv : Option String) : Option Bool :=
  match cv with
  | none => some false
  | some cv =>
    if cv = "" then some false
    else
      match splitOnChar ',' cv.toList with
      | [client, version, platform] => _old_client_parsed client version platform
      | _ => none

/-- What `meta` produces, abstracted from the returned payloads. -/
inductive MetaOutcome where
  | upgradeRequired
  | uncaughtError
  | rejectProtocol
  | rejectScheduler
  | metadata
deriving DecidableEq, Repr

/-- Embeds `SyncCollectionHandler.meta`.  `syncVer` stands for `anki.consts.SYNC_VER`
and `schedVer` for `self.col.schedVer()`.  `v = none` models the protocol
version missing from the payload, in which case Python 3 raises `TypeError` at
`v > SYNC_VER` (`None` compared to an integer), an uncaught exception. -/
def meta (syncVer schedVer : Int) (v : Option Int) (cv : Option String) : MetaOutcome :=
  match _old_client cv with
  | none => MetaOutcome.uncaughtError
  | some true => MetaOutcome.upgradeRequired
  | some false =>
    match v with
    | none => MetaOutcome.uncaughtError
    | some v =>
      if v > syncVer then MetaOutcome.rejectProtocol
      else if v < 9 ∧ schedVer ≥ 2 then MetaOutcome.rejectScheduler
      else MetaOutcome.metadata

/-! ### `SyncCollectionHandler.start` (lines 113-119) and `removed` (142-158) -/

/-- The constant `anki.consts.REM_CARD`. -/
def REM_CARD : Int := 0

/-- The constant `anki.consts.REM_NOTE`. -/
def REM_NOTE : Int := 1

/-- The constant `anki.consts.REM_DECK`. -/
def REM_DECK : Int := 2

/-- One row of the collection's `graves` table: `oid`, `type`, `usn`. -/
structure GraveRow where
  oid : Int
  gtype : Int
  usn : Int
deriving DecidableEq, Repr

/-- A tombstone set as exchanged by the protocol. -/
structure Graves where
  cards : List Int
  notes : List Int
  decks : List Int
deriving DecidableEq, Repr

/-- The empty tombstone set (the default `graves` argument of `start`). -/
def noGraves : Graves := ⟨[], [], []⟩

/-- The slice of the collection the tombstone machinery touches: the server USN
counter `col._usn` and the `graves` table in cursor order. -/
structure Col where
  usn : Int
  graves : List GraveRow
deriving DecidableEq, Repr

/-- The cursor loop of `removed()` over the rows already filtered by
`usn >= minUsn`: `REM_CARD` rows to `cards`, `REM_NOTE` rows to `notes`,
anything else to `decks`, preserving cursor order. -/
def removedAux (minUsn : Int) : List GraveRow → Graves
  | [] => ⟨[], [], []⟩
  | r :: rest =>
    let g := removedAux minUsn rest
    if r.usn ≥ minUsn then
      if r.gtype = REM_CARD then { g with cards := r.oid :: g.cards }
      else if r.gtype = REM_NOTE then { g with notes := r.oid :: g.notes }
      else { g with decks := r.oid :: g.decks }
    else g

/-- Embeds `SyncCollectionHandler.removed`: the server's own tombstones with
`usn >= minUsn`, partitioned by tombstone type. -/
def removed (minUsn : Int) (col : Col) : Graves :=
  removedAux minUsn col.graves

/-- Modelled from the spec: `anki.sync.Syncer.remove` is external-collaborator
code (the `anki` library, not under `src/`).  Spec §4.2 (`applyGraves`): it
applies the client's tombstones to the server's data; spec §3: the USN
watermark captured at the start of a pass "is the basis for attributing
newly-written records", so the grave rows recorded while applying the client's
tombstones carry the collection's current USN counter (notes first, then cards,
then decks). -/
def remove (g : Graves) (col : Col) : Col :=
  { col with
      graves := col.graves
        ++ g.notes.map (fun i => ⟨i, REM_NOTE, col.usn⟩)
        ++ g.cards.map (fun i => ⟨i, REM_CARD, col.usn⟩)
        ++ g.decks.map (fun i => ⟨i, REM_DECK, col.usn⟩) }

/-- The per-pass state `start` records on the handler. -/
structure SyncState where
  maxUsn : Int
  minUsn : Int
  lnewer : Bool
deriving DecidableEq, Repr

/-- Embeds `SyncCollectionHandler.start`: capture `maxUsn`, store `minUsn`, store the
negated `lnewer`, compute the server tombstones, apply the client's tombstones,
and return the previously computed server tombstones. -/
def start (minUsn : Int) (lnewer : Bool) (graves : Graves) (col : Col) :
    Graves × SyncState × Col :=
  let maxUsn := col.usn
  let st : SyncState := ⟨maxUsn, minUsn, !lnewer⟩
  let lgraves := removed minUsn col
  let col' := remove graves col
  (lgraves, st, col')

/-! ### `SyncMediaHandler.uploadChanges` (lines 188-206) and its helpers
(`_check_zip_data` 208-221, `_adopt_media_changes_from_zip` 223-269,
`_remove_media_files` 286-305)

The client's archive is a list of members (name, raw bytes), one of them
`_meta`.  `parseMeta` stands for `json.loads(... .decode())` on the `_meta`
bytes (`none` = a decode error), `normalize` for
`_normalize_filename`/`unicodedata.normalize`, `csum` for
`anki.utils.checksum` and `mtime` for `self.col.media._mtime` on the freshly
written file.  Writing the file bytes into the media directory is a filesystem
effect outside the media index and is not modelled; every abort path of the
Python code raises before the index (`media` table / `lastUsn`) is touched,
which the state-threading below mirrors statement by statement. -/

/-- A member of the uploaded zip archive: entry name and raw bytes. -/
structure ZipMember where
  filename : String
  data : List Nat
deriving DecidableEq, Repr

/-- Models `zip_file.read(name)` / `getinfo(name)` (`none` = `KeyError`). -/
def readMember (z : List ZipMember) (name : String) : Option (List Nat) :=
  (z.find? (fun m => m.filename = name)).map (fun m => m.data)

/-- Embeds `SyncMediaHandler._check_zip_data`: reject when `_meta` is missing, when
its size exceeds 100000 bytes or when the members' sizes sum to more than
100 MiB. -/
def _check_zip_data (z : List ZipMember) : Option Unit :=
  match readMember z "_meta" with
  | none => none
  | some mb =>
    if mb.length > 100000 then none
    else if (z.map (fun m => m.data.length)).sum > 100 * 1024 * 1024 then none
    else some ()

/-- The `for i in zip_file.infolist()` loop of `_adopt_media_changes_from_zip`
building `media_to_add`: skip `_meta`, `int()` the member name, index `meta`
with it (Python indexing, so negative indices wrap), normalize the named file,
and record `(filename, csum, mtime, 0)`.  `none` = `ValueError`/`IndexError`
aborting the request. -/
def computeAdds (normalize : String → String) (csum : List Nat → String)
    (mtime : String → Int) (meta : List (String × String)) :
    List ZipMember → Option (List (String × String × Int × Int))
  | [] => some []
  | m :: rest =>
    if m.filename = "_meta" then computeAdds normalize csum mtime meta rest
    else
      match pyInt? m.filename.toList with
      | none => none
      | some i =>
        match pyIndex meta i with
        | none => none
        | some entry =>
          let filename := normalize entry.1
          match computeAdds normalize csum mtime meta rest with
          | none => none
          | some tail => some ((filename, csum m.data, mtime filename, 0) :: tail)

/-- Embeds `SyncMediaHandler._remove_media_files` on the media index: set `csum` to
`NULL` for every listed filename (the best-effort `os.remove` on the media
directory is a logged filesystem effect outside the index). -/
def _remove_media_files (filenames : List String) (db : MediaDB) : MediaDB :=
  { db with
      rows := db.rows.map
        (fun r => if r.fname ∈ filenames then { r with csum := none } else r) }

/-- One sqlite `INSERT OR REPLACE INTO media VALUES (?,?,?,?)`: replace the row
with the same `fname` primary key, or append a new row. -/
def insertOrReplaceOne (a : String × String × Int × Int) (rows : List MediaRow) :
    List MediaRow :=
  if rows.any (fun r => r.fname = a.1) then
    rows.map (fun r =>
      if r.fname = a.1 then ⟨a.1, some a.2.1, a.2.2.1, a.2.2.2⟩ else r)
  else rows ++ [⟨a.1, some a.2.1, a.2.2.1, a.2.2.2⟩]

/-- The `executemany` over `media_to_add`. -/
def executemanyInsert (adds : List (String × String × Int × Int)) (db : MediaDB) :
    MediaDB :=
  { db with rows := adds.foldl (fun rs a => insertOrReplaceOne a rs) db.rows }

/-- Embeds `SyncMediaHandler._adopt_media_changes_from_zip`: parse `_meta`, collect the
deletions (entries with empty ordinal, normalized), collect the additions from
the zip members, then `assert len(meta) == processed_count` **before** applying
the deletions and then the insertions to the media index.  The first component
is `some processed_count` on success and `none` when an exception aborts the
request; the second is the media index afterwards (the guards
`if media_to_remove:` / `if media_to_add:` are dropped since applying an empty
batch is the identity). -/
def _adopt_media_changes_from_zip (normalize : String → String)
    (csum : List Nat → String) (mtime : String → Int)
    (parseMeta : List Nat → Option (List (String × String)))
    (z : List ZipMember) (db : MediaDB) : Option Nat × MediaDB :=
  match readMember z "_meta" with
  | none => (none, db)
  | some mb =>
    match parseMeta mb with
    | none => (none, db)
    | some meta =>
      let media_to_remove := (meta.filter (fun e => e.2 = "")).map (fun e => normalize e.1)
      match computeAdds normalize csum mtime meta z with
      | none => (none, db)
      | some media_to_add =>
        let processed_count := media_to_remove.length + media_to_add.length
        if meta.length = processed_count then
          let db1 := _remove_media_files media_to_remove db
          let db2 := executemanyInsert media_to_add db1
          (some processed_count, db2)
        else (none, db)

/-- Embeds `SyncMediaHandler.uploadChanges`: `_check_zip_data`, then adopt the changes,
then bump `lastUsn` by the processed count and answer
`[processed_count, lastUsn]`.  The first component is the response data
(`none` = the request aborted with an exception); the second is the media index
the server is left with. -/
def uploadChanges (normalize : String → String) (csum : List Nat → String)
    (mtime : String → Int) (parseMeta : List Nat → Option (List (String × String)))
    (z : List ZipMember) (db : MediaDB) : Option (Nat × Int) × MediaDB :=
  match _check_zip_data z with
  | none => (none, db)
  | some _ =>
    match _adopt_media_changes_from_zip normalize csum mtime parseMeta z db with
    | (none, db') => (none, db')
    | (some processed_count, db') =>
      let our_last_usn := db'.lastUsn
      let db'' := { db' with lastUsn := our_last_usn + processed_count }
      (some (processed_count, db''.lastUsn), db'')

/-! ## Theorems -/

/-! ### C2: `downloadFiles` ceilings -/

theorem downloadFilesLoop_packs_in_order (SZ CNT : Nat) (size : String → Nat) :
    ∀ (fs : List String) (cnt sz : Nat),
      ∃ t, downloadFilesLoop SZ CNT size fs cnt sz ++ t = fs := by
  intro fs
  induction fs with
  | nil => intro cnt sz; exact ⟨[], rfl⟩
  | cons f rest ih =>
    intro cnt sz
    simp only [downloadFilesLoop]
    split
    · exact ⟨rest, rfl⟩
    · obtain ⟨t, ht⟩ := ih (cnt + 1) (sz + size f)
      exact ⟨t, by simp [ht]⟩

theorem downloadFilesLoop_length (SZ CNT : Nat) (size : String → Nat) :
    ∀ (fs : List String) (cnt sz : Nat), cnt ≤ CNT + 1 →
      (downloadFilesLoop SZ CNT size fs cnt sz).length + cnt ≤ CNT + 2 := by
  intro fs
  induction fs with
  | nil => intro cnt sz h; simp only [downloadFilesLoop, List.length_nil]; omega
  | cons f rest ih =>
    intro cnt sz h
    simp only [downloadFilesLoop]
    split
    · simp only [List.length_singleton]; omega
    · rename_i hcond
      have hcnt : ¬ CNT < cnt := fun hc => hcond (Or.inr hc)
      have := ih (cnt + 1) (sz + size f) (by omega)
      simp only [List.length_cons]; omega

theorem downloadFilesLoop_size (SZ CNT : Nat) (size : String → Nat) :
    ∀ (fs : List String) (cnt sz : Nat), sz ≤ SZ →
      sz + sumSizes size (downloadFilesLoop SZ CNT size fs cnt sz).dropLast ≤ SZ := by
  intro fs
  induction fs with
  | nil =>
    intro cnt sz h
    simp only [downloadFilesLoop, List.dropLast_nil, sumSizes, List.map_nil,
      List.sum_nil]
    omega
  | cons f rest ih =>
    intro cnt sz h
    simp only [downloadFilesLoop]
    split
    · simp only [List.dropLast_single, sumSizes, List.map_nil, List.sum_nil]; omega
    · rename_i hcond
      have hsz : sz + size f ≤ SZ := by
        rcases Nat.lt_or_ge SZ (sz + size f) with hlt | hle
        · exact absurd (Or.inl hlt) hcond
        · omega
      have hrec := ih (cnt + 1) (sz + size f) hsz
      cases hL : downloadFilesLoop SZ CNT size rest (cnt + 1) (sz + size f) with
      | nil =>
        simp only [List.dropLast_single, sumSizes, List.map_nil, List.sum_nil]
        omega
      | cons b l =>
        rw [hL] at hrec
        simp only [List.dropLast_cons₂, sumSizes, List.map_cons, List.sum_cons] at hrec ⊢
        omega

/-- C2 counterexample: the claim says `downloadFiles` "stops as soon as ... the
file count exceeds the file-count ceiling" and "never exceeds either ceiling by
more than one file's worth".  With a file-count ceiling of 2 and five
1-byte files under a generous byte ceiling, the loop packs **4** files: the
count check `cnt > SYNC_ZIP_COUNT` tests the 0-based index of the file just
written, so the count already exceeded the ceiling one file earlier without
stopping, and the zip exceeds the count ceiling by two files, not one. -/
theorem downloadFiles_count_counterexample :
    (downloadFiles 1000000 2 (fun _ => 1) ["a", "b", "c", "d", "e"]).length = 4 ∧
      ¬ (downloadFiles 1000000 2 (fun _ => 1) ["a", "b", "c", "d", "e"]).length ≤ 2 + 1 := by
  decide

/-- C2 (amended): `downloadFiles` packs the requested files in order; after
adding each file it stops as soon as the accumulated byte size exceeds the
byte-size ceiling or the 0-based index of the just-added file exceeds the
file-count ceiling (so the file that triggers the stop is included).  The
packed bytes therefore exceed the byte ceiling by at most the last packed
file's size (all files but the last fit within `SZ`), and the packed file
count is at most the count ceiling **plus two**. -/
theorem downloadFiles_ceiling_bounds (SZ CNT : Nat) (size : String → Nat)
    (files : List String) :
    (∃ t, downloadFiles SZ CNT size files ++ t = files) ∧
      (downloadFiles SZ CNT size files).length ≤ CNT + 2 ∧
      sumSizes size (downloadFiles SZ CNT size files).dropLast ≤ SZ := by
  refine ⟨downloadFilesLoop_packs_in_order SZ CNT size files 0 0, ?_, ?_⟩
  · have := downloadFilesLoop_length SZ CNT size files 0 0 (by omega)
    simpa [downloadFiles] using this
  · have := downloadFilesLoop_size SZ CNT size files 0 0 (by omega)
    simpa [downloadFiles] using this

/-! ### C7: `mediaChanges` snapshot delta -/

/-- C7: for every `mediaChanges` call, when the client's `lastUsn` is strictly
below the server's current media USN or equals 0, the result lists every media
row as `(filename, usn, checksum)` where `usn` is the single current server
media USN for every returned row; otherwise the result is empty. -/
theorem mediaChanges_snapshot (lastUsn : Int) (db : MediaDB) :
    ((lastUsn < db.lastUsn ∨ lastUsn = 0) →
        mediaChanges lastUsn db = db.rows.map (fun r => (r.fname, db.lastUsn, r.csum)) ∧
        (mediaChanges lastUsn db).length = db.rows.length ∧
        ∀ p ∈ mediaChanges lastUsn db,
          p.2.1 = db.lastUsn ∧ ∃ r ∈ db.rows, p = (r.fname, db.lastUsn, r.csum)) ∧
      (¬ (lastUsn < db.lastUsn ∨ lastUsn = 0) → mediaChanges lastUsn db = []) := by
  constructor
  · intro h
    have heq : mediaChanges lastUsn db
        = db.rows.map (fun r => (r.fname, db.lastUsn, r.csum)) := by
      simp [mediaChanges, h]
    refine ⟨heq, by simp [heq], ?_⟩
    intro p hp
    rw [heq] at hp
    obtain ⟨r, hr, rfl⟩ := List.mem_map.mp hp
    exact ⟨rfl, r, hr, rfl⟩
  · intro h
    simp [mediaChanges, h]

/-! ### C8: `_decode_data` and the compression flag -/

/-- C8: for every raw payload, a nonzero compression flag makes `_decode_data`
gunzip the bytes first; the result is then JSON-decoded, and on JSON/Unicode
decode failure the (decompressed) raw bytes are wrapped and returned instead of
failing; an absent `c` form field defaults to 0, in which case no gunzip is
performed. -/
theorem decode_data_pipeline {J : Type} (gunzip : List Nat → List Nat)
    (jsonDec : List Nat → Option J) (data : List Nat) (compression : Int) :
    (compression ≠ 0 →
        _decode_data gunzip jsonDec data compression =
          match jsonDec (gunzip data) with
          | some j => Decoded.json j
          | none => Decoded.rawBytes (gunzip data)) ∧
      compressionField none = 0 ∧
      _decode_data gunzip jsonDec data (compressionField none) =
        match jsonDec data with
        | some j => Decoded.json j
        | none => Decoded.rawBytes data := by
  refine ⟨fun h => ?_, rfl, ?_⟩
  · simp [_decode_data, h]
  · simp [_decode_data, compressionField]

/-! ### C10: operation-name routing is independent of the URL prefix -/

/-- C10: both base paths validate the operation name against the single
`valid_urls` union, and the executed handler family is selected by
`get_handler_for_operation` from the name alone; hence for a session-bearing
request a collection operation such as `chunk` sent under the media base path
runs on the Collection-Sync handler, and a media operation under the
collection base path runs on the Media-Sync handler. -/
theorem routing_selects_by_operation_name (url : String) :
    (url ∉ valid_urls →
        routeCollectionPath true url = RouteOutcome.notFound ∧
        routeMediaPath true url = RouteOutcome.notFound) ∧
      (url ∈ SyncCollectionHandler.operations →
        routeMediaPath true url = RouteOutcome.handled HandlerFamily.collection ∧
        routeCollectionPath true url = RouteOutcome.handled HandlerFamily.collection) ∧
      (url ∈ SyncMediaHandler.operations →
        routeCollectionPath true url = RouteOutcome.handled HandlerFamily.media ∧
        routeMediaPath true url = RouteOutcome.handled HandlerFamily.media) ∧
      routeMediaPath true "chunk" = RouteOutcome.handled HandlerFamily.collection := by
  refine ⟨fun h => ?_, fun h => ?_, fun h => ?_, by decide⟩
  · constructor
    · simp [routeCollectionPath, h]
    · simp [routeMediaPath, h]
  · fin_cases h <;> exact ⟨by decide, by decide⟩
  · fin_cases h <;> exact ⟨by decide, by decide⟩

/-! ### C3: `meta` version gating -/

/-- C3 counterexample: the claim says that when `cv` does not identify an
out-of-date known client and the protocol checks pass, `meta` returns the
metadata object with `cont = true`, and that "unknown client names [are]
always accepted".  For `cv = "unknownclient,,mac"` (an unknown client whose
version component is empty) the parse `int('')` inside `_old_client` raises an
uncaught `ValueError` before any client-family branch is reached, so `meta`
fails with a transport-level error instead of returning the metadata object,
even with `v = SYNC_VER = 9` and scheduler version 1. -/
theorem meta_unknown_client_counterexample :
    _old_client (some "unknownclient,,mac") ≠ some true ∧
      meta 9 1 (some 9) (some "unknownclient,,mac") = MetaOutcome.uncaughtError ∧
      MetaOutcome.uncaughtError ≠ MetaOutcome.metadata := by
  decide

/-- C3 (amended): for every `meta` request whose client-version string `cv` is
absent, empty, or parses (comma-split into three parts with a version that
still parses after alpha/beta/rc-suffix extraction and suffix stripping —
`_old_client cv = some b` below; a `cv` failing this raises an uncaught
exception instead): if `cv` identifies a known client older than its
hard-coded minimum (e.g. `"ankidesktop,2.0.26,mac"`, below the 2.0.27 floor),
`meta` returns the transport-level upgrade-required status; otherwise if `v`
exceeds the server's supported protocol version it returns the structured
rejection, otherwise if `v < 9` while the collection uses scheduler version
≥ 2 it returns the scheduler rejection, and otherwise the metadata object;
moreover unknown client names whose version parses are always accepted. -/
theorem meta_version_gating (syncVer schedVer v : Int) (cv : Option String)
    (b : Bool) (hcv : _old_client cv = some b) :
    (_old_client (some "ankidesktop,2.0.26,mac") = some true ∧
        meta syncVer schedVer (some v) (some "ankidesktop,2.0.26,mac") =
          MetaOutcome.upgradeRequired) ∧
      meta syncVer schedVer (some v) cv =
        (if b then MetaOutcome.upgradeRequired
         else if v > syncVer then MetaOutcome.rejectProtocol
         else if v < 9 ∧ schedVer ≥ 2 then MetaOutcome.rejectScheduler
         else MetaOutcome.metadata) ∧
      (∀ client ver plat b2, client ≠ "ankidesktop".toList →
        client ≠ "ankidroid".toList →
        _old_client_parsed client ver plat = some b2 → b2 = false) := by
  refine ⟨⟨by decide, ?_⟩, ?_, ?_⟩
  · have h26 : _old_client (some "ankidesktop,2.0.26,mac") = some true := by decide
    simp [meta, h26]
  · cases b <;> simp [meta, hcv]
  · intro client ver plat b2 h1 h2 h3
    simp only [_old_client_parsed] at h3
    split at h3
    · exact absurd h3 (by simp)
    · split at h3
      · exact absurd h3 (by simp)
      · rw [if_neg h1, if_neg h2] at h3
        exact (Option.some.inj h3).symm

/-- C3 witness: the amended characterization applied at
`cv = "ankidesktop,2.0.26,mac"` (the spec's scenario), `SYNC_VER = 9`,
scheduler version 1, `v = 9`. -/
theorem meta_version_gating_witness :
    (_old_client (some "ankidesktop,2.0.26,mac") = some true ∧
        meta 9 1 (some 9) (some "ankidesktop,2.0.26,mac") =
          MetaOutcome.upgradeRequired) ∧
      meta 9 1 (some 9) (some "ankidesktop,2.0.26,mac") =
        (if true then MetaOutcome.upgradeRequired
         else if (9 : Int) > 9 then MetaOutcome.rejectProtocol
         else if (9 : Int) < 9 ∧ (1 : Int) ≥ 2 then MetaOutcome.rejectScheduler
         else MetaOutcome.metadata) ∧
      (∀ client ver plat b2, client ≠ "ankidesktop".toList →
        client ≠ "ankidroid".toList →
        _old_client_parsed client ver plat = some b2 → b2 = false) :=
  meta_version_gating 9 1 9 (some "ankidesktop,2.0.26,mac") true (by decide)

/-! ### C9: `meta` with the protocol version absent -/

/-- C9: if `meta` is invoked without a protocol version (`v = None`) and the
client-version string does not identify an out-of-date known client (and does
not itself raise), the comparison `v > SYNC_VER` compares `None` to an integer,
which raises an uncaught `TypeError` in Python 3: the request fails with a
transport-level internal error instead of a structured rejection or the
metadata object. -/
theorem meta_none_version_uncaught (syncVer schedVer : Int) (cv : Option String)
    (hcv : _old_client cv = some false) :
    meta syncVer schedVer none cv = MetaOutcome.uncaughtError := by
  simp [meta, hcv]

/-- C9 witness: a request with no protocol version and no client-version
string. -/
theorem meta_none_version_uncaught_witness :
    meta 9 1 none none = MetaOutcome.uncaughtError :=
  meta_none_version_uncaught 9 1 none rfl

/-! ### C4: `start` captures state and returns the pre-apply tombstones -/

theorem removedAux_cards_eq (m : Int) (rows : List GraveRow) :
    (removedAux m rows).cards =
      (rows.filter (fun r => decide (r.usn ≥ m) && decide (r.gtype = REM_CARD))).map
        GraveRow.oid := by
  induction rows with
  | nil => rfl
  | cons r rest ih =>
    simp only [removedAux, List.filter_cons]
    split
    · rename_i husn
      split
      · rename_i hty
        simp [husn, hty, ih]
      · rename_i hty
        split
        · simp [husn, hty, ih]
        · simp [husn, hty, ih]
    · rename_i husn
      simp [husn, ih]

theorem removedAux_notes_eq (m : Int) (rows : List GraveRow) :
    (removedAux m rows).notes =
      (rows.filter (fun r => decide (r.usn ≥ m) && decide (r.gtype = REM_NOTE))).map
        GraveRow.oid := by
  induction rows with
  | nil => rfl
  | cons r rest ih =>
    simp only [removedAux, List.filter_cons]
    split
    · rename_i husn
      split
      · rename_i hty
        have hn : ¬ r.gtype = REM_NOTE := by
          rw [hty]; decide
        simp [husn, hn, ih]
      · rename_i hty
        split
        · rename_i hty2
          simp [husn, hty2, ih]
        · rename_i hty2
          simp [husn, hty2, ih]
    · rename_i husn
      simp [husn, ih]

theorem removedAux_decks_eq (m : Int) (rows : List GraveRow) :
    (removedAux m rows).decks =
      (rows.filter (fun r =>
          decide (r.usn ≥ m) && !decide (r.gtype = REM_CARD) &&
            !decide (r.gtype = REM_NOTE))).map GraveRow.oid := by
  induction rows with
  | nil => rfl
  | cons r rest ih =>
    simp only [removedAux, List.filter_cons]
    split
    · rename_i husn
      split
      · rename_i hty
        simp [husn, hty, ih]
      · rename_i hty
        split
        · rename_i hty2
          simp [husn, hty, hty2, ih]
        · rename_i hty2
          simp [husn, hty, hty2, ih]
    · rename_i husn
      simp [husn, ih]

theorem mem_removedAux_cards (m : Int) (rows : List GraveRow) (i : Int) :
    i ∈ (removedAux m rows).cards ↔
      ∃ r ∈ rows, r.oid = i ∧ r.usn ≥ m ∧ r.gtype = REM_CARD := by
  rw [removedAux_cards_eq]
  simp only [List.mem_map, List.mem_filter, Bool.and_eq_true, decide_eq_true_eq]
  constructor
  · rintro ⟨r, ⟨hr, hu, ht⟩, rfl⟩
    exact ⟨r, hr, rfl, hu, ht⟩
  · rintro ⟨r, hr, rfl, hu, ht⟩
    exact ⟨r, ⟨hr, hu, ht⟩, rfl⟩

theorem mem_removedAux_notes (m : Int) (rows : List GraveRow) (i : Int) :
    i ∈ (removedAux m rows).notes ↔
      ∃ r ∈ rows, r.oid = i ∧ r.usn ≥ m ∧ r.gtype = REM_NOTE := by
  rw [removedAux_notes_eq]
  simp only [List.mem_map, List.mem_filter, Bool.and_eq_true, decide_eq_true_eq]
  constructor
  · rintro ⟨r, ⟨hr, hu, ht⟩, rfl⟩
    exact ⟨r, hr, rfl, hu, ht⟩
  · rintro ⟨r, hr, rfl, hu, ht⟩
    exact ⟨r, ⟨hr, hu, ht⟩, rfl⟩

theorem mem_removedAux_decks (m : Int) (rows : List GraveRow) (i : Int) :
    i ∈ (removedAux m rows).decks ↔
      ∃ r ∈ rows, r.oid = i ∧ r.usn ≥ m ∧ r.gtype ≠ REM_CARD ∧ r.gtype ≠ REM_NOTE := by
  rw [removedAux_decks_eq]
  simp only [List.mem_map, List.mem_filter, Bool.and_eq_true, Bool.not_eq_true',
    decide_eq_false_iff_not, decide_eq_true_eq]
  constructor
  · rintro ⟨r, ⟨hr, ⟨hu, hc⟩, hn⟩, rfl⟩
    exact ⟨r, hr, rfl, hu, hc, hn⟩
  · rintro ⟨r, hr, rfl, hu, hc, hn⟩
    exact ⟨r, ⟨hr, ⟨hu, hc⟩, hn⟩, rfl⟩

/-- C4: for every `start(minUsn, lnewer, graves)` call, the handler records
`maxUsn = current server USN`, `minUsn`, and the negation of `lnewer` as the
tie-break flag; the returned tombstone set is `removed()` computed on the
collection **before** the client's tombstones are applied, and an id appears in
its cards/notes/decks component exactly when some grave row of that pre-state
has that oid, `usn ≥ minUsn`, and the matching tombstone type — in particular
every returned tombstone id comes from a grave row with `usn ≥ minUsn`. -/
theorem start_records_and_returns_pre_tombstones (minUsn : Int) (lnewer : Bool)
    (graves : Graves) (col : Col) :
    (start minUsn lnewer graves col).2.1 = ⟨col.usn, minUsn, !lnewer⟩ ∧
      (start minUsn lnewer graves col).2.2 = remove graves col ∧
      (start minUsn lnewer graves col).1 = removed minUsn col ∧
      (∀ i, i ∈ (start minUsn lnewer graves col).1.cards ↔
        ∃ r ∈ col.graves, r.oid = i ∧ r.usn ≥ minUsn ∧ r.gtype = REM_CARD) ∧
      (∀ i, i ∈ (start minUsn lnewer graves col).1.notes ↔
        ∃ r ∈ col.graves, r.oid = i ∧ r.usn ≥ minUsn ∧ r.gtype = REM_NOTE) ∧
      (∀ i, i ∈ (start minUsn lnewer graves col).1.decks ↔
        ∃ r ∈ col.graves, r.oid = i ∧ r.usn ≥ minUsn ∧
          r.gtype ≠ REM_CARD ∧ r.gtype ≠ REM_NOTE) := by
  refine ⟨rfl, rfl, rfl, ?_, ?_, ?_⟩
  · exact fun i => mem_removedAux_cards minUsn col.graves i
  · exact fun i => mem_removedAux_notes minUsn col.graves i
  · exact fun i => mem_removedAux_decks minUsn col.graves i

/-! ### C6: idempotence of `start` at the watermark -/

/-- C6 counterexample: the claim quantifies over "any server grave state".
Take a collection at USN 5 whose graves table holds a card tombstone with
`usn = 5` (a row attributed the current watermark, as happens to rows written
during a sync pass before `finish` bumps the USN).  `start 0` returns it and
captures `maxUsn = 5`; re-running `start` with `minUsn = 5` returns the same
tombstone again — not the empty set — because `removed()` keeps every row with
`usn >= minUsn` and the row's USN equals the watermark. -/
theorem start_watermark_counterexample :
    (start 5 false noGraves
        ((start 0 false noGraves ⟨5, [⟨1, 0, 5⟩]⟩).2.2)).1 ≠ noGraves ∧
      (start 0 false noGraves (⟨5, [⟨1, 0, 5⟩]⟩ : Col)).2.1.maxUsn = 5 := by
  decide

/-- C6 (amended): provided every grave row's USN is strictly below the server's
current USN (the standard watermark invariant holding between passes) and the
client sends no tombstones of its own, then after `start(minUsn, ...)` captures
`maxUsn`, re-running `start` with `minUsn` equal to the prior `maxUsn` yields
the empty tombstone set. -/
theorem start_idempotent_at_watermark (minUsn : Int) (l1 l2 : Bool) (col : Col)
    (h : ∀ r ∈ col.graves, r.usn < col.usn) :
    (start (start minUsn l1 noGraves col).2.1.maxUsn l2 noGraves
        ((start minUsn l1 noGraves col).2.2)).1 = noGraves := by
  have hrm : remove noGraves col = col := by
    simp [remove, noGraves]
  simp only [start, hrm]
  show removedAux col.usn col.graves = noGraves
  have : ∀ rows : List GraveRow, (∀ r ∈ rows, r.usn < col.usn) →
      removedAux col.usn rows = ⟨[], [], []⟩ := by
    intro rows
    induction rows with
    | nil => intro _; rfl
    | cons r rest ih =>
      intro hall
      have hr := hall r (by simp)
      simp only [removedAux]
      rw [if_neg (by omega)]
      exact ih (fun x hx => hall x (List.mem_cons_of_mem r hx))
  exact this col.graves h

/-- C6 witness: a collection at USN 5 whose only tombstone has USN 3 (below the
watermark); the second `start` at the captured `maxUsn` returns no
tombstones. -/
theorem start_idempotent_at_watermark_witness :
    (start (start 0 false noGraves ⟨5, [⟨1, 0, 3⟩]⟩).2.1.maxUsn false noGraves
        ((start 0 false noGraves ⟨5, [⟨1, 0, 3⟩]⟩).2.2)).1 = noGraves :=
  start_idempotent_at_watermark 0 false false ⟨5, [⟨1, 0, 3⟩]⟩ (by decide)

/-! ### C1: `uploadChanges` USN reconciliation -/

theorem adopt_spec (normalize : String → String) (csum : List Nat → String)
    (mtime : String → Int) (parseMeta : List Nat → Option (List (String × String)))
    (z : List ZipMember) (db : MediaDB) :
    ((_adopt_media_changes_from_zip normalize csum mtime parseMeta z db).1 = none ∧
        (_adopt_media_changes_from_zip normalize csum mtime parseMeta z db).2 = db) ∨
      (∃ mb meta adds,
        readMember z "_meta" = some mb ∧ parseMeta mb = some meta ∧
        computeAdds normalize csum mtime meta z = some adds ∧
        (_adopt_media_changes_from_zip normalize csum mtime parseMeta z db).1 =
          some ((meta.filter (fun e => e.2 = "")).length + adds.length) ∧
        meta.length = (meta.filter (fun e => e.2 = "")).length + adds.length ∧
        ((_adopt_media_changes_from_zip normalize csum mtime parseMeta z db).2).lastUsn =
          db.lastUsn) := by
  simp only [_adopt_media_changes_from_zip]
  split
  · exact Or.inl ⟨rfl, rfl⟩
  · rename_i mb hmb
    split
    · exact Or.inl ⟨rfl, rfl⟩
    · rename_i meta hmeta
      split
      · exact Or.inl ⟨rfl, rfl⟩
      · rename_i adds hadds
        split
        · rename_i hlen
          refine Or.inr ⟨mb, meta, adds, hmb, hmeta, hadds, ?_, ?_, ?_⟩
          · simp [List.length_map]
          · simpa [List.length_map] using hlen
          · simp [executemanyInsert, _remove_media_files]
        · exact Or.inl ⟨rfl, rfl⟩

/-- C1: for every `uploadChanges` archive and media index, whenever the request
succeeds with response `[processed_count, new_usn]`, the new media USN minus
the old one equals `processed_count`, which equals the number of deletions
(`_meta` entries with empty ordinal) plus the number of added zip members, and
also equals `len(meta)` (the `assert len(meta) == processed_count` has passed);
and whenever the request aborts (missing/oversized `_meta`, oversized
contents, unparseable member name or ordinal out of range, or the assert
failing because some `_meta` entry has no matching add-or-remove action), the
media index is left unmutated. -/
theorem uploadChanges_usn_reconciliation (normalize : String → String)
    (csum : List Nat → String) (mtime : String → Int)
    (parseMeta : List Nat → Option (List (String × String)))
    (z : List ZipMember) (db : MediaDB) :
    (∀ pc newUsn,
        (uploadChanges normalize csum mtime parseMeta z db).1 = some (pc, newUsn) →
          newUsn - db.lastUsn = pc ∧
          ∃ mb meta adds,
            readMember z "_meta" = some mb ∧ parseMeta mb = some meta ∧
            computeAdds normalize csum mtime meta z = some adds ∧
            pc = (meta.filter (fun e => e.2 = "")).length + adds.length ∧
            pc = meta.length) ∧
      ((uploadChanges normalize csum mtime parseMeta z db).1 = none →
        (uploadChanges normalize csum mtime parseMeta z db).2 = db) := by
  constructor
  · intro pc newUsn h
    simp only [uploadChanges] at h
    split at h
    · exact absurd h (by simp)
    · split at h
      · exact absurd h (by simp)
      · rename_i pc0 db' hadopt
        simp only [Option.some.injEq, Prod.mk.injEq] at h
        obtain ⟨rfl, rfl⟩ := h
        rcases adopt_spec normalize csum mtime parseMeta z db with
          ⟨hn, _⟩ | ⟨mb, meta, adds, hmb, hmeta, hadds, hfst, hlen, husn⟩
        · rw [hadopt] at hn
          exact absurd hn (by simp)
        · rw [hadopt] at hfst husn
          simp only [Option.some.injEq] at hfst
          refine ⟨?_, mb, meta, adds, hmb, hmeta, hadds, hfst, by omega⟩
          dsimp only at husn ⊢
          omega
  · intro h
    simp only [uploadChanges] at h ⊢
    split at h
    · rfl
    · split at h
      · rename_i db' hadopt
        rcases adopt_spec normalize csum mtime parseMeta z db with
          ⟨_, hdb⟩ | ⟨_, _, _, _, _, _, hfst, _, _⟩
        · rw [hadopt] at hdb
          exact hdb
        · rw [hadopt] at hfst
          exact absurd hfst (by simp)
      · rename_i pc0 db' hadopt
        exact absurd h (by simp)

end AnkiSyncd
